import Mathlib

/-!
Shallow embedding of the whispercaption realtime captioning pipeline
(src/app.py, src/_whisper_settings.py, src/playground_overlay.py).

Audio samples are modelled by an arbitrary type `α` (the windowing logic
never inspects sample values).  Python lists / numpy 1-D arrays become
Lean lists; bounded `queue.Queue`s become lists with an explicit capacity.
-/

namespace WhisperCaption

/-! ### Windowing accumulator (TranscriberThread.run, src/app.py:164-180)

The worker loop keeps a rolling 1-D buffer: each received chunk is
concatenated onto it, the buffer is truncated to its last
`max_buffer_samples` entries when it exceeds that bound, and then
fixed-size windows of `block_samples` are sliced off the front while
enough samples remain. -/

/-- `buffer = buffer[-maxS:]` applied only when `len(buffer) > maxS`
(Python slicing: `[-0:]` is the whole list, so `maxS = 0` trims nothing). -/
def truncateBuf {α : Type} (maxS : Nat) (b : List α) : List α :=
  if maxS < b.length then
    (if maxS = 0 then b else b.drop (b.length - maxS))
  else b

/-- The `while len(buffer) >= block_samples` loop: repeatedly slice
`buffer[:bs]` off as a window, keep `buffer[bs:]`.  The `0 < bs` guard
encodes the loop's progress (the source loop only terminates for a
positive block size). -/
def emitWindows {α : Type} (bs : Nat) (b : List α) : List (List α) × List α :=
  if _h : 0 < bs ∧ bs ≤ b.length then
    (b.take bs :: (emitWindows bs (b.drop bs)).1, (emitWindows bs (b.drop bs)).2)
  else ([], b)
termination_by b.length
decreasing_by
  simp only [List.length_drop]
  omega

/-- One iteration of the consumer loop on a received chunk:
append, truncate, then extract all full windows. -/
def accumStep {α : Type} (bs maxS : Nat) (b chunk : List α) :
    List (List α) × List α :=
  emitWindows bs (truncateBuf maxS (b ++ chunk))

/-- The whole consumer loop over a (finite) stream of chunks, returning
all emitted windows in emission order together with the final buffer. -/
def accumRun {α : Type} (bs maxS : Nat) (b : List α) :
    List (List α) → List (List α) × List α
  | [] => ([], b)
  | c :: cs =>
    ((accumStep bs maxS b c).1 ++ (accumRun bs maxS (accumStep bs maxS b c).2 cs).1,
     (accumRun bs maxS (accumStep bs maxS b c).2 cs).2)

lemma emitWindows_flatten_append {α : Type} (bs : Nat) :
    ∀ (n : Nat) (b : List α), b.length ≤ n →
      ((emitWindows bs b).1.flatten ++ (emitWindows bs b).2 = b ∧
       ∀ w ∈ (emitWindows bs b).1, w.length = bs) := by
  intro n
  induction n with
  | zero =>
    intro b hb
    rw [emitWindows]
    have : ¬ (0 < bs ∧ bs ≤ b.length) := by omega
    rw [dif_neg this]
    simp
  | succ n ih =>
    intro b hb
    rw [emitWindows]
    by_cases h : 0 < bs ∧ bs ≤ b.length
    · rw [dif_pos h]
      have hlen : (b.drop bs).length ≤ n := by
        simp only [List.length_drop]; omega
      obtain ⟨ih1, ih2⟩ := ih (b.drop bs) hlen
      constructor
      · simp only [List.flatten_cons, List.append_assoc, ih1]
        exact List.take_append_drop bs b
      · intro w hw
        rcases List.mem_cons.mp hw with hw | hw
        · subst hw; exact List.length_take_of_le h.2
        · exact ih2 w hw
    · rw [dif_neg h]
      simp

lemma emitWindows_decomp {α : Type} (bs : Nat) (b : List α) :
    (emitWindows bs b).1.flatten ++ (emitWindows bs b).2 = b :=
  (emitWindows_flatten_append bs b.length b le_rfl).1

lemma emitWindows_mem_length {α : Type} (bs : Nat) (b : List α) :
    ∀ w ∈ (emitWindows bs b).1, w.length = bs :=
  (emitWindows_flatten_append bs b.length b le_rfl).2

lemma truncateBuf_suffix {α : Type} (maxS : Nat) (b : List α) :
    ∃ d, d ++ truncateBuf maxS b = b := by
  unfold truncateBuf
  by_cases h1 : maxS < b.length
  · rw [if_pos h1]
    by_cases h2 : maxS = 0
    · rw [if_pos h2]; exact ⟨[], rfl⟩
    · rw [if_neg h2]
      exact ⟨b.take (b.length - maxS), List.take_append_drop _ b⟩
  · rw [if_neg h1]; exact ⟨[], rfl⟩

lemma truncateBuf_length {α : Type} (maxS : Nat) (b : List α) (h : 0 < maxS) :
    (truncateBuf maxS b).length = min b.length maxS := by
  unfold truncateBuf
  by_cases h1 : maxS < b.length
  · rw [if_pos h1, if_neg (by omega : ¬ maxS = 0)]
    simp only [List.length_drop]
    omega
  · rw [if_neg h1]
    omega

/-- `Slices bs S ws`: the windows `ws` appear, in order, as pairwise
disjoint contiguous slices of the stream `S`, each of length exactly
`bs`; arbitrary stretches of `S` may be skipped between (and after)
them.  This is the spec's "non-overlapping, contiguous windows in
arrival order, with no gaps other than the truncation-induced loss". -/
inductive Slices {α : Type} (bs : Nat) : List α → List (List α) → Prop where
  | nil (s : List α) : Slices bs s []
  | skip (a : α) (s : List α) (ws : List (List α)) :
      Slices bs s ws → Slices bs (a :: s) ws
  | window (w : List α) (s : List α) (ws : List (List α)) :
      w.length = bs → Slices bs s ws → Slices bs (w ++ s) (w :: ws)

lemma Slices.prepend {α : Type} {bs : Nat} {s : List α} {ws : List (List α)}
    (d : List α) (h : Slices bs s ws) : Slices bs (d ++ s) ws := by
  induction d with
  | nil => exact h
  | cons a d ih => exact Slices.skip a (d ++ s) ws ih

lemma Slices.glue {α : Type} {bs : Nat} {s : List α} {ws' : List (List α)}
    (ws : List (List α)) (hlen : ∀ w ∈ ws, w.length = bs)
    (h : Slices bs s ws') : Slices bs (ws.flatten ++ s) (ws ++ ws') := by
  induction ws with
  | nil => simpa using h
  | cons w ws ih =>
    have hw : w.length = bs := hlen w (List.mem_cons_self w ws)
    have hws : ∀ u ∈ ws, u.length = bs := fun u hu => hlen u (List.mem_cons_of_mem w hu)
    simpa only [List.flatten_cons, List.append_assoc] using
      Slices.window w (ws.flatten ++ s) (ws ++ ws') hw (ih hws)

lemma accumStep_decomp {α : Type} (bs maxS : Nat) (b c : List α) :
    ∃ d, d ++ ((accumStep bs maxS b c).1.flatten ++ (accumStep bs maxS b c).2)
      = b ++ c := by
  obtain ⟨d, hd⟩ := truncateBuf_suffix maxS (b ++ c)
  exact ⟨d, by rw [accumStep, emitWindows_decomp, hd]⟩

lemma accumStep_mem_length {α : Type} (bs maxS : Nat) (b c : List α) :
    ∀ w ∈ (accumStep bs maxS b c).1, w.length = bs :=
  emitWindows_mem_length bs (truncateBuf maxS (b ++ c))

/-- **C1.** Every window the consumer loop emits has exactly `block_samples`
length, and the emitted windows are non-overlapping contiguous slices of
the concatenated input stream, in arrival order, with gaps only where
samples were skipped (truncation). -/
theorem windows_wellformed {α : Type} (bs maxS : Nat) (b : List α)
    (chunks : List (List α)) :
    (∀ w ∈ (accumRun bs maxS b chunks).1, w.length = bs) ∧
    Slices bs (b ++ chunks.flatten) (accumRun bs maxS b chunks).1 := by
  induction chunks generalizing b with
  | nil =>
    refine ⟨by simp [accumRun], ?_⟩
    simp only [accumRun]
    exact Slices.nil _
  | cons c cs ih =>
    obtain ⟨ihlen, ihsl⟩ := ih (accumStep bs maxS b c).2
    constructor
    · intro w hw
      rw [accumRun] at hw
      rcases List.mem_append.mp hw with hw | hw
      · exact accumStep_mem_length bs maxS b c w hw
      · exact ihlen w hw
    · rw [accumRun]
      obtain ⟨d, hd⟩ := accumStep_decomp bs maxS b c
      have hglue :
          Slices bs ((accumStep bs maxS b c).1.flatten ++
              ((accumStep bs maxS b c).2 ++ cs.flatten))
            ((accumStep bs maxS b c).1 ++ (accumRun bs maxS (accumStep bs maxS b c).2 cs).1) :=
        Slices.glue _ (accumStep_mem_length bs maxS b c) ihsl
      have hpre := Slices.prepend d hglue
      have heq : d ++ ((accumStep bs maxS b c).1.flatten ++
          ((accumStep bs maxS b c).2 ++ cs.flatten)) = b ++ (c :: cs).flatten := by
        have := congrArg (· ++ cs.flatten) hd
        simpa [List.append_assoc] using this
      rwa [heq] at hpre

/-- **C2.** After an accumulation step the rolling buffer holds at most
`max_buffer_samples` samples; the truncation keeps a suffix of the
appended buffer (oldest samples trimmed) of length `min len maxS`
(i.e. exactly the last `maxS` samples on overflow). -/
theorem rollingBuffer_invariant {α : Type} (bs maxS : Nat) (b c : List α)
    (h : 0 < maxS) :
    (accumStep bs maxS b c).2.length ≤ maxS ∧
    (∃ d, d ++ truncateBuf maxS (b ++ c) = b ++ c) ∧
    (truncateBuf maxS (b ++ c)).length = min (b ++ c).length maxS := by
  refine ⟨?_, truncateBuf_suffix maxS (b ++ c), truncateBuf_length maxS (b ++ c) h⟩
  have hdec := emitWindows_decomp bs (truncateBuf maxS (b ++ c))
  have hle : (accumStep bs maxS b c).2.length ≤ (truncateBuf maxS (b ++ c)).length := by
    rw [accumStep]
    have := congrArg List.length hdec
    simp only [List.length_append] at this
    omega
  have := truncateBuf_length maxS (b ++ c) h
  omega

/-- Witness for C2 at a concrete overflowing input. -/
theorem rollingBuffer_invariant_witness :
    (accumStep 2 3 [0, 1] [2, 3] : List (List Int) × List Int).2.length ≤ 3 ∧
    (∃ d, d ++ truncateBuf 3 ([0, 1] ++ [2, 3]) = ([0, 1] ++ [2, 3] : List Int)) ∧
    (truncateBuf 3 (([0, 1] ++ [2, 3] : List Int))).length
      = min ([0, 1] ++ [2, 3] : List Int).length 3 :=
  rollingBuffer_invariant 2 3 [0, 1] [2, 3] (by decide)

/-! ### Configuration (Config, src/app.py:24-46)

The `Config` frozen dataclass has no `__post_init__`: constructing it
performs only field assignment and cannot raise.  Python ints are
modelled by `Int`, Python floats in this dataclass by `Rat` (only exact
values and order comparisons occur). -/

structure Config where
  sample_rate : Int
  block_seconds : Rat
  model_size : String
  language : String
  task : String
  audio_queue_size : Int
  text_queue_size : Int
  control_queue_size : Int
  gui_poll_interval_ms : Int
  max_buffer_seconds : Int
  beam_size : Int
  temperature : Rat
  vad_filter : Bool

/-- Python `int()` truncation toward zero of an exact rational. -/
def intOfRat (q : Rat) : Int := Int.tdiv q.num q.den

/-- `Config.block_samples = int(sample_rate * block_seconds)`. -/
def Config.block_samples (c : Config) : Int :=
  intOfRat ((c.sample_rate : Rat) * c.block_seconds)

/-- `Config.max_buffer_samples = block_samples * max_buffer_seconds`. -/
def Config.max_buffer_samples (c : Config) : Int :=
  c.block_samples * c.max_buffer_seconds

/-- `Config(...)`: the dataclass constructor, which only assigns fields.
It is embedded as an `Except`-returning constructor to make the absence
of any validation error path explicit. -/
def mkConfig (sr : Int) (bsec : Rat) (ms lg tk : String)
    (aq tq cq gp mb bm : Int) (tp : Rat) (vf : Bool) : Except String Config :=
  .ok ⟨sr, bsec, ms, lg, tk, aq, tq, cq, gp, mb, bm, tp, vf⟩

/-- The defaults of the `Config` dataclass. -/
def defaultConfig : Config :=
  ⟨16000, 1, "small", "en", "transcribe", 8, 4, 2, 50, 10, 1, 0, false⟩

lemma accumStep_exact {α : Type} (bs maxS : Nat) (c : List α)
    (h1 : 0 < bs) (h2 : bs ≤ maxS) (hc : c.length = bs) :
    accumStep bs maxS [] c = ([c], []) := by
  rw [accumStep]
  have htr : truncateBuf maxS ([] ++ c) = c := by
    rw [List.nil_append, truncateBuf, if_neg (by omega)]
  rw [htr]
  rw [emitWindows, dif_pos ⟨h1, by omega⟩]
  have hdrop : c.drop bs = [] := by
    apply List.eq_nil_of_length_eq_zero
    simp [hc]
  rw [hdrop]
  rw [emitWindows]
  have hneg : ¬ (0 < bs ∧ bs ≤ ([] : List α).length) := by simp; omega
  rw [dif_neg hneg]
  have htake : c.take bs = c := List.take_of_length_le (le_of_eq hc)
  simp [htake]

lemma accumRun_exact {α : Type} (bs maxS : Nat)
    (h1 : 0 < bs) (h2 : bs ≤ maxS) :
    ∀ (chunks : List (List α)), (∀ c ∈ chunks, c.length = bs) →
      (accumRun bs maxS [] chunks).1.length = chunks.length ∧
      (accumRun bs maxS [] chunks).2 = [] := by
  intro chunks
  induction chunks with
  | nil => intro _; simp [accumRun]
  | cons c cs ih =>
    intro hall
    have hc : c.length = bs := hall c (List.mem_cons_self c cs)
    have hcs : ∀ u ∈ cs, u.length = bs := fun u hu => hall u (List.mem_cons_of_mem c hu)
    have hstep := accumStep_exact bs maxS c h1 h2 hc
    obtain ⟨ih1, ih2⟩ := ih hcs
    rw [accumRun, hstep]
    constructor
    · simp only [List.length_append, List.length_cons, List.length_nil, ih1]
      omega
    · exact ih2

/-- **C9.** With the default configuration (16000 Hz, 1.0 s blocks, 10 s
max buffering, so `block_samples = 16000` and
`max_buffer_samples = 160000`), consuming 25 blocks of 16000 samples
each emits exactly 25 windows and leaves an empty rolling buffer. -/
theorem endToEnd_25_blocks :
    defaultConfig.block_samples = 16000 ∧
    defaultConfig.max_buffer_samples = 160000 ∧
    (accumRun 16000 160000 ([] : List Int)
        (List.replicate 25 (List.replicate 16000 0))).1.length = 25 ∧
    (accumRun 16000 160000 ([] : List Int)
        (List.replicate 25 (List.replicate 16000 0))).2.length = 0 := by
  have hall : ∀ c ∈ List.replicate 25 (List.replicate 16000 (0 : Int)),
      c.length = 16000 := by
    intro c hc
    rw [List.eq_of_mem_replicate hc, List.length_replicate]
  obtain ⟨h1, h2⟩ := accumRun_exact 16000 160000 (by norm_num) (by norm_num)
    (List.replicate 25 (List.replicate 16000 (0 : Int))) hall
  have hb : defaultConfig.block_samples = 16000 := by
    show intOfRat ((16000 : Rat) * 1) = 16000
    rw [mul_one]
    show Int.tdiv (16000 : Rat).num (16000 : Rat).den = 16000
    norm_num
  refine ⟨hb, ?_, ?_, ?_⟩
  · show defaultConfig.block_samples * 10 = 160000
    rw [hb]; norm_num
  · rw [h1, List.length_replicate]
  · rw [h2, List.length_nil]

/-! ### Caption assembler (Overlay._on_tick, src/app.py:277-288, and
playground_overlay.tick, src/playground_overlay.py:94-106)

Python strings are modelled as `List Char` so that the whitespace
stripping and punctuation tests compute structurally. -/

/-- Python `str.isspace` characters relevant to `str.strip()`. -/
def pyIsSpace (c : Char) : Bool :=
  c = ' ' || c = '\t' || c = '\n' || c = '\r' || c = '\x0b' || c = '\x0c'

/-- Python `s.strip()`: remove leading and trailing whitespace. -/
def pyStrip (s : List Char) : List Char :=
  ((s.dropWhile pyIsSpace).reverse.dropWhile pyIsSpace).reverse

/-- Python `s.endswith((".", "?", "!"))`. -/
def endsSentence (s : List Char) : Bool :=
  s.getLast? = some '.' || s.getLast? = some '?' || s.getLast? = some '!'

/-- Result of the Overlay processing one queued snippet. -/
structure AssemblerStep where
  buffer : List Char
  render : List Char
  cleared : Bool
deriving DecidableEq

/-- One iteration of the snippet-draining loop in `Overlay._on_tick`:
strip the snippet, append it to the buffer (space separated, then
stripped), render the buffer, and clear the buffer immediately when the
snippet ends a sentence. -/
def overlayStep (buf raw : List Char) : AssemblerStep :=
  let snippet := pyStrip raw
  let buf1 := pyStrip (buf ++ [' '] ++ snippet)
  if endsSentence snippet then ⟨[], buf1, true⟩ else ⟨buf1, buf1, false⟩

/-- Trace of the Overlay consuming a sequence of snippets. -/
structure AssemblerTrace where
  buffer : List Char
  clears : Nat
  renders : List (List Char)
deriving DecidableEq

/-- `Overlay._on_tick`'s drain loop over a list of queued snippets. -/
def overlayRun (buf : List Char) : List (List Char) → AssemblerTrace
  | [] => ⟨buf, 0, []⟩
  | raw :: rest =>
    ⟨(overlayRun (overlayStep buf raw).buffer rest).buffer,
     (if (overlayStep buf raw).cleared then 1 else 0)
       + (overlayRun (overlayStep buf raw).buffer rest).clears,
     (overlayStep buf raw).render
       :: (overlayRun (overlayStep buf raw).buffer rest).renders⟩

/-- State of the playground overlay's caption loop: the accumulated
buffer and the deferred-clear flag (`_state` in playground_overlay.py). -/
structure PlayState where
  buf : List Char
  clearNext : Bool
deriving DecidableEq

/-- One `tick` of playground_overlay.py: if a clear is pending, render
empty text and reset the buffer first; then append the chunk, render,
and set the deferred-clear flag when the chunk ends a sentence.
Returns the new state and the renders performed this tick, in order. -/
def playTick (st : PlayState) (ch : List Char) : PlayState × List (List Char) :=
  let cleared : List Char × List (List Char) :=
    if st.clearNext then ([], [[]]) else (st.buf, [])
  let buf1 := pyStrip (cleared.1 ++ [' '] ++ ch)
  (⟨buf1, endsSentence ch⟩, cleared.2 ++ [buf1])

/-- **C3 counterexample.** In `Overlay._on_tick` the buffer reset is NOT
deferred: immediately after processing the sentence-terminal snippet
"world." (with prior buffer "Hello") the caption buffer is empty, not
still holding the completed sentence "Hello world.". -/
theorem captionReset_counterexample :
    (overlayStep "Hello".data "world.".data).buffer = [] ∧
    ([] : List Char) ≠ "Hello world.".data := by decide

/-- **C3 (amended).** In `Overlay._on_tick` the reset is applied
immediately: a sentence-terminal snippet is rendered joined to the
buffer and the buffer is empty right after.  The deferred reset the
claim describes is the playground overlay's behaviour: there, a
sentence-terminal chunk leaves the buffer holding the completed
sentence with the clear flag set, and the clear (an empty render and a
fresh buffer ignoring the old one) happens when the next chunk is
consumed. -/
theorem captionReset_amended :
    (∀ buf raw, endsSentence (pyStrip raw) = true →
      (overlayStep buf raw).buffer = [] ∧
      (overlayStep buf raw).render = pyStrip (buf ++ [' '] ++ pyStrip raw)) ∧
    (∀ buf ch, endsSentence ch = true →
      (playTick ⟨buf, false⟩ ch).1 = ⟨pyStrip (buf ++ [' '] ++ ch), true⟩) ∧
    (∀ buf ch,
      (playTick ⟨buf, true⟩ ch).1.buf = pyStrip ([' '] ++ ch) ∧
      (playTick ⟨buf, true⟩ ch).2 = [[], pyStrip ([' '] ++ ch)]) := by
  refine ⟨?_, ?_, ?_⟩
  · intro buf raw h
    simp [overlayStep, h]
  · intro buf ch h
    simp [playTick, h]
  · intro buf ch
    simp [playTick]

/-- Witness for C3 (amended) at the concrete snippets of the spec's
scenario. -/
theorem captionReset_amended_witness :
    ((overlayStep "Hello".data "world.".data).buffer = [] ∧
      (overlayStep "Hello".data "world.".data).render
        = pyStrip ("Hello".data ++ [' '] ++ pyStrip "world.".data)) ∧
    (playTick ⟨"Hello".data, false⟩ "world.".data).1
        = ⟨pyStrip ("Hello".data ++ [' '] ++ "world.".data), true⟩ ∧
    (playTick ⟨"Hello world.".data, true⟩ "Next".data).1.buf
        = pyStrip ([' '] ++ "Next".data) :=
  ⟨captionReset_amended.1 "Hello".data "world.".data (by decide),
   captionReset_amended.2.1 "Hello".data "world.".data (by decide),
   (captionReset_amended.2.2 "Hello world.".data "Next".data).1⟩

/-- **C4.** Feeding "Hello", "world.", "Next" to the Overlay's caption
loop from an empty buffer renders exactly "Hello", "Hello world.",
"Next", clearing the buffer exactly once. -/
theorem captionSequence_hello :
    (overlayRun [] ["Hello".data, "world.".data, "Next".data]).renders
      = ["Hello".data, "Hello world.".data, "Next".data] ∧
    (overlayRun [] ["Hello".data, "world.".data, "Next".data]).clears = 1 := by
  decide

/-! ### Bounded queues (queue.Queue(maxsize=...) with put_nowait under
try/except queue.Full, src/app.py:196-201, 318-330, 300-305)

`put_nowait` on a queue of `maxsize = cap` raises `queue.Full` when
`qsize() >= cap`; every producer in the pipeline catches the exception
and drops the item.  The combined operation is embedded as a total
push-or-reject. -/

/-- Non-blocking push: enqueue at the tail if below capacity, otherwise
reject (`false`) leaving the queue untouched. -/
def tryPush {α : Type} (cap : Nat) (q : List α) (x : α) : List α × Bool :=
  if q.length < cap then (q ++ [x], true) else (q, false)

/-- `try: q.put_nowait(x) except queue.Full: pass` — just the resulting
queue contents. -/
def pushDrop {α : Type} (cap : Nat) (q : List α) (x : α) : List α :=
  (tryPush cap q x).1

/-- **C7.** A push onto a full bounded queue is rejected by dropping the
item being pushed: the call returns (no block, no error escapes the
producer) with the queue's contents — and hence their FIFO order —
unchanged. -/
theorem queueDropNewest {α : Type} (cap : Nat) (q : List α) (x : α)
    (h : cap ≤ q.length) :
    (tryPush cap q x).1 = q ∧ (tryPush cap q x).2 = false := by
  rw [tryPush, if_neg (by omega)]
  exact ⟨rfl, rfl⟩

/-- Witness for C7: pushing onto a full 2-capacity queue. -/
theorem queueDropNewest_witness :
    (tryPush 2 [10, 20] (30 : Int)).1 = [10, 20] ∧
    (tryPush 2 [10, 20] (30 : Int)).2 = false :=
  queueDropNewest 2 [10, 20] 30 (by decide)

/-! ### Inference worker (TranscriberThread.run and _transcribe_segment,
src/app.py:118-203)

Model-load fallback: an ordered candidate list of (device, compute
type) pairs is tried in order; a candidate succeeds when both engine
construction and the warm-up call succeed.  External effects
(construction, warm-up, transcription) are parameters of the model. -/

/-- A (device, compute_type) fallback candidate. -/
structure Candidate where
  dev : String
  ctype : String
deriving DecidableEq

/-- The `load_attempts` list built in `TranscriberThread.run`. -/
def loadAttempts (cudaAvailable : Bool) : List Candidate :=
  if cudaAvailable then
    [⟨"cuda", "int8_float16"⟩, ⟨"cuda", "int8"⟩, ⟨"cuda", "float16"⟩,
     ⟨"cpu", "int8"⟩]
  else [⟨"cpu", "int8"⟩]

/-- A candidate attempt succeeds when engine construction succeeds and
then the warm-up transcription succeeds (any exception in the `try`
block fails the attempt). -/
def attemptOk (constructOk warmOk : Candidate → Bool) (c : Candidate) : Bool :=
  constructOk c && warmOk c

/-- The fallback loop: try candidates in order, stop at the first
success (`break`), `none` when all fail. -/
def tryLoadModel (constructOk warmOk : Candidate → Bool) :
    List Candidate → Option Candidate
  | [] => none
  | c :: rest =>
    if attemptOk constructOk warmOk c then some c
    else tryLoadModel constructOk warmOk rest

/-- Outcome of a worker run: which engine it initialized with, whether
it set the shutdown signal at initialization, and how many windows it
transcribed. -/
structure WorkerOutcome where
  engine : Option Candidate
  stopSignaled : Bool
  transcriptions : Nat
deriving DecidableEq

/-- `TranscriberThread.run`: load with fallback; on total failure set
the stop event and return before the consume loop (zero transcriptions
of real windows); otherwise run the windowing loop, transcribing each
emitted window. -/
def runWorker {α : Type} (constructOk warmOk : Candidate → Bool)
    (attempts : List Candidate) (bs maxS : Nat)
    (chunks : List (List α)) : WorkerOutcome :=
  match tryLoadModel constructOk warmOk attempts with
  | none => ⟨none, true, 0⟩
  | some c => ⟨some c, false, (accumRun bs maxS [] chunks).1.length⟩

lemma tryLoadModel_eq_find (constructOk warmOk : Candidate → Bool) :
    ∀ attempts : List Candidate,
      tryLoadModel constructOk warmOk attempts
        = attempts.find? (attemptOk constructOk warmOk) := by
  intro attempts
  induction attempts with
  | nil => rfl
  | cons c rest ih =>
    rw [tryLoadModel, List.find?]
    by_cases h : attemptOk constructOk warmOk c
    · rw [if_pos h, h]
    · rw [if_neg h, Bool.not_eq_true] at *
      rw [h, ih]

/-- **C5.** The worker initializes with exactly the first candidate (in
list order) whose construction and warm-up both succeed; when every
candidate fails it signals shutdown and transcribes zero windows. -/
theorem engineFallback {α : Type} (constructOk warmOk : Candidate → Bool)
    (attempts : List Candidate) (bs maxS : Nat) (chunks : List (List α)) :
    (runWorker constructOk warmOk attempts bs maxS chunks).engine
      = attempts.find? (attemptOk constructOk warmOk) ∧
    (attempts.find? (attemptOk constructOk warmOk) = none →
      (runWorker constructOk warmOk attempts bs maxS chunks).stopSignaled = true ∧
      (runWorker constructOk warmOk attempts bs maxS chunks).transcriptions = 0) := by
  have hfind := tryLoadModel_eq_find constructOk warmOk attempts
  constructor
  · rw [runWorker]
    rcases heq : tryLoadModel constructOk warmOk attempts with _ | c
    · rw [heq] at hfind; exact hfind
    · rw [heq] at hfind; exact hfind
  · intro hnone
    rw [runWorker, hfind, hnone]
    exact ⟨rfl, rfl⟩

/-- Witness for C5: all four CUDA-era candidates fail construction, so
the worker stops having transcribed nothing. -/
theorem engineFallback_witness :
    (runWorker (fun _ => false) (fun _ => true) (loadAttempts true) 2 4
        [[(0 : Int), 1]]).stopSignaled = true ∧
    (runWorker (fun _ => false) (fun _ => true) (loadAttempts true) 2 4
        [[(0 : Int), 1]]).transcriptions = 0 :=
  (engineFallback (fun _ => false) (fun _ => true) (loadAttempts true) 2 4
      [[(0 : Int), 1]]).2 (by decide)

/-! ### Per-window transcription (TranscriberThread._transcribe_segment,
src/app.py:182-203)

The external `model.transcribe` call is a parameter returning either an
error (a raised exception, caught by the surrounding `try`) or the list
of segment texts; texts are `List Char` as above. -/

/-- `" ".join(s.text for s in segments).strip()`. -/
def joinStripText (texts : List (List Char)) : List Char :=
  pyStrip (List.intercalate [' '] texts)

/-- `_transcribe_segment`: on a transcription error the queue is left
unchanged (exception caught, loop continues); on success the joined,
stripped text is pushed (drop-on-full) only when non-empty. -/
def transcribeSegment {α : Type} (tr : List α → Except String (List (List Char)))
    (cap : Nat) (q : List (List Char)) (seg : List α) : List (List Char) :=
  match tr seg with
  | .error _ => q
  | .ok texts =>
    if joinStripText texts = [] then q
    else pushDrop cap q (joinStripText texts)

/-- The worker's steady-state loop over a list of windows, threading the
text queue through `_transcribe_segment` for every window. -/
def processWindows {α : Type} (tr : List α → Except String (List (List Char)))
    (cap : Nat) (q : List (List Char)) : List (List α) → List (List Char)
  | [] => q
  | w :: ws => processWindows tr cap (transcribeSegment tr cap q w) ws

/-- **C6.** A failing transcribe call for one window leaves the text
queue unchanged and the loop continues with the remaining windows (the
worker is never terminated by a single failure); and when the joined,
trimmed text is empty no snippet is pushed either. -/
theorem transientFailure {α : Type}
    (tr : List α → Except String (List (List Char)))
    (cap : Nat) (q : List (List Char)) (seg : List α) (ws : List (List α)) :
    (∀ e, tr seg = .error e →
      transcribeSegment tr cap q seg = q ∧
      processWindows tr cap q (seg :: ws) = processWindows tr cap q ws) ∧
    (∀ texts, tr seg = .ok texts → joinStripText texts = [] →
      transcribeSegment tr cap q seg = q) := by
  constructor
  · intro e he
    have hseg : transcribeSegment tr cap q seg = q := by
      rw [transcribeSegment, he]
    exact ⟨hseg, by rw [processWindows, hseg]⟩
  · intro texts ht hempty
    rw [transcribeSegment, ht]
    simp only [hempty, if_pos]

/-- Witness for C6: a transcribe stub that always raises, and one that
returns a single empty segment text. -/
theorem transientFailure_witness :
    (transcribeSegment (fun _ : List Int => Except.error "boom") 4
        ["hi".data] [0] = ["hi".data] ∧
      processWindows (fun _ : List Int => Except.error "boom") 4
        ["hi".data] ([0] :: [[1]]) =
      processWindows (fun _ : List Int => Except.error "boom") 4
        ["hi".data] [[1]]) ∧
    transcribeSegment (fun _ : List Int => Except.ok [[], []]) 4
        ["hi".data] [0] = ["hi".data] :=
  ⟨(transientFailure (fun _ : List Int => Except.error "boom") 4
      ["hi".data] [0] [[1]]).1 "boom" rfl,
   (transientFailure (fun _ : List Int => Except.ok [[], []]) 4
      ["hi".data] [0] []).2 [[], []] rfl (by decide)⟩

/-! ### Settings validation (WhisperSettings, src/_whisper_settings.py)

Python floats only face order comparisons against 0.0 and 1.0 here, so
`temperature` is modelled as `Rat`. -/

/-- `_VALID_SIZES`. -/
def validSizes : List String := ["tiny", "base", "small", "medium", "large"]

/-- `_VALID_TASKS`. -/
def validTasks : List String := ["transcribe", "translate"]

/-- `_TEMP_MIN`. -/
def tempMin : Rat := 0

/-- `_TEMP_MAX`. -/
def tempMax : Rat := 1

structure WhisperSettings where
  model_size : String
  language : String
  task : String
  temperature : Rat
deriving DecidableEq

/-- `WhisperSettings(...)`: dataclass construction followed by
`__post_init__`, which validates model size, task and temperature in
that order and raises `ValueError` on the first violation. -/
def mkWhisperSettings (size lang tk : String) (temp : Rat) :
    Except String WhisperSettings :=
  if size ∈ validSizes then
    if tk ∈ validTasks then
      if tempMin ≤ temp ∧ temp ≤ tempMax then .ok ⟨size, lang, tk, temp⟩
      else .error "Temperature must be between 0.0 and 1.0."
    else .error "Invalid task. Choose from transcribe, translate."
  else .error "Invalid model size. Choose from tiny, base, small, medium, large."

/-- `set_model_size`: validate, then assign. -/
def set_model_size (st : WhisperSettings) (s : String) :
    Except String WhisperSettings :=
  if s ∈ validSizes then .ok { st with model_size := s }
  else .error "Invalid model size."

/-- `set_language`: assign without validation. -/
def set_language (st : WhisperSettings) (s : String) :
    Except String WhisperSettings :=
  .ok { st with language := s }

/-- `set_task`: validate, then assign. -/
def set_task (st : WhisperSettings) (s : String) :
    Except String WhisperSettings :=
  if s ∈ validTasks then .ok { st with task := s }
  else .error "Invalid task."

/-- `set_temperature`: validate, then assign. -/
def set_temperature (st : WhisperSettings) (t : Rat) :
    Except String WhisperSettings :=
  if tempMin ≤ t ∧ t ≤ tempMax then .ok { st with temperature := t }
  else .error "Temperature must be between 0.0 and 1.0."

/-- The object state after a call that may raise: on a raise the state
of this call's target field is unchanged (each setter validates before
assigning). -/
def afterCall (st : WhisperSettings) (r : Except String WhisperSettings) :
    WhisperSettings :=
  match r with
  | .ok st' => st'
  | .error _ => st

/-- A key/value pair passed to `update(**kwargs)`, restricted to the
four documented settings (each of which has a `set_<key>` method, so
`update` always routes through the validating setter). -/
inductive UpdateVal where
  | modelSize (s : String)
  | language (s : String)
  | task (s : String)
  | temperature (t : Rat)

/-- Dispatch of one `update` key through its setter. -/
def applyUpdateVal (st : WhisperSettings) : UpdateVal → Except String WhisperSettings
  | .modelSize s => set_model_size st s
  | .language s => set_language st s
  | .task s => set_task st s
  | .temperature t => set_temperature st t

/-- `update(**kwargs)`: apply the pairs in order; a raising setter
aborts the loop, keeping the mutations already applied. -/
def updateRun (st : WhisperSettings) : List UpdateVal → WhisperSettings
  | [] => st
  | kv :: rest =>
    match applyUpdateVal st kv with
    | .ok st' => updateRun st' rest
    | .error _ => st

/-- One public mutating call on a `WhisperSettings` object. -/
inductive SettingsOp where
  | setModelSize (s : String)
  | setLanguage (s : String)
  | setTask (s : String)
  | setTemperature (t : Rat)
  | update (kvs : List UpdateVal)

/-- The object state after one call (normal return or raise). -/
def runOp (st : WhisperSettings) : SettingsOp → WhisperSettings
  | .setModelSize s => afterCall st (set_model_size st s)
  | .setLanguage s => afterCall st (set_language st s)
  | .setTask s => afterCall st (set_task st s)
  | .setTemperature t => afterCall st (set_temperature st t)
  | .update kvs => updateRun st kvs

/-- The validated-fields invariant of a `WhisperSettings` object. -/
def SettingsInv (st : WhisperSettings) : Prop :=
  st.model_size ∈ validSizes ∧ st.task ∈ validTasks ∧
  tempMin ≤ st.temperature ∧ st.temperature ≤ tempMax

/-- **C8 counterexample.** Constructing the app's `Config` with sample
rate `0` (out of range per the claim) succeeds: the frozen dataclass has
no `__post_init__`, so no validation error is raised at construction
time. -/
theorem configValidation_counterexample :
    (mkConfig 0 1 "small" "en" "transcribe" 8 4 2 50 10 1 0 false).isOk
      = true := rfl

/-- **C8 (amended).** Only `WhisperSettings` validates at construction,
and only model size, task and temperature: its construction succeeds
exactly when those three are in range (language is not validated).  The
app's `Config` dataclass performs no validation at all: construction
succeeds for every argument tuple, including out-of-range sample rates,
block durations, queue capacities, poll intervals, max buffered seconds
and beam widths. -/
theorem configValidation_amended :
    (∀ (sr : Int) (bsec : Rat) (ms lg tk : String)
        (aq tq cq gp mb bm : Int) (tp : Rat) (vf : Bool),
      (mkConfig sr bsec ms lg tk aq tq cq gp mb bm tp vf).isOk = true) ∧
    (∀ (size lang tk : String) (temp : Rat),
      (mkWhisperSettings size lang tk temp).isOk = true ↔
        (size ∈ validSizes ∧ tk ∈ validTasks ∧
         tempMin ≤ temp ∧ temp ≤ tempMax)) := by
  constructor
  · intro sr bsec ms lg tk aq tq cq gp mb bm tp vf
    rfl
  · intro size lang tk temp
    rw [mkWhisperSettings]
    by_cases h1 : size ∈ validSizes
    · rw [if_pos h1]
      by_cases h2 : tk ∈ validTasks
      · rw [if_pos h2]
        by_cases h3 : tempMin ≤ temp ∧ temp ≤ tempMax
        · rw [if_pos h3]
          simp [Except.isOk, Except.toBool, h1, h2, h3]
        · rw [if_neg h3]
          simp only [Except.isOk, Except.toBool]
          constructor
          · intro hfalse; cases hfalse
          · intro hall; exact absurd ⟨hall.2.2.1, hall.2.2.2⟩ h3
      · rw [if_neg h2]
        simp only [Except.isOk, Except.toBool]
        constructor
        · intro hfalse; cases hfalse
        · intro hall; exact absurd hall.2.1 h2
    · rw [if_neg h1]
      simp only [Except.isOk, Except.toBool]
      constructor
      · intro hfalse; cases hfalse
      · intro hall; exact absurd hall.1 h1

lemma settingsInv_afterCall_model_size (st : WhisperSettings) (s : String)
    (h : SettingsInv st) : SettingsInv (afterCall st (set_model_size st s)) := by
  rw [set_model_size]
  by_cases hs : s ∈ validSizes
  · rw [if_pos hs]
    exact ⟨hs, h.2.1, h.2.2.1, h.2.2.2⟩
  · rw [if_neg hs]
    exact h

lemma settingsInv_afterCall_language (st : WhisperSettings) (s : String)
    (h : SettingsInv st) : SettingsInv (afterCall st (set_language st s)) := by
  exact ⟨h.1, h.2.1, h.2.2.1, h.2.2.2⟩

lemma settingsInv_afterCall_task (st : WhisperSettings) (s : String)
    (h : SettingsInv st) : SettingsInv (afterCall st (set_task st s)) := by
  rw [set_task]
  by_cases hs : s ∈ validTasks
  · rw [if_pos hs]
    exact ⟨h.1, hs, h.2.2.1, h.2.2.2⟩
  · rw [if_neg hs]
    exact h

lemma settingsInv_afterCall_temperature (st : WhisperSettings) (t : Rat)
    (h : SettingsInv st) : SettingsInv (afterCall st (set_temperature st t)) := by
  rw [set_temperature]
  by_cases ht : tempMin ≤ t ∧ t ≤ tempMax
  · rw [if_pos ht]
    exact ⟨h.1, h.2.1, ht.1, ht.2⟩
  · rw [if_neg ht]
    exact h

lemma settingsInv_applyUpdateVal (st : WhisperSettings) (kv : UpdateVal)
    (st' : WhisperSettings) (h : SettingsInv st)
    (hok : applyUpdateVal st kv = .ok st') : SettingsInv st' := by
  cases kv with
  | modelSize s =>
    rw [applyUpdateVal, set_model_size] at hok
    by_cases hs : s ∈ validSizes
    · rw [if_pos hs] at hok
      cases hok
      exact ⟨hs, h.2.1, h.2.2.1, h.2.2.2⟩
    · rw [if_neg hs] at hok
      cases hok
  | language s =>
    rw [applyUpdateVal, set_language] at hok
    cases hok
    exact ⟨h.1, h.2.1, h.2.2.1, h.2.2.2⟩
  | task s =>
    rw [applyUpdateVal, set_task] at hok
    by_cases hs : s ∈ validTasks
    · rw [if_pos hs] at hok
      cases hok
      exact ⟨h.1, hs, h.2.2.1, h.2.2.2⟩
    · rw [if_neg hs] at hok
      cases hok
  | temperature t =>
    rw [applyUpdateVal, set_temperature] at hok
    by_cases ht : tempMin ≤ t ∧ t ≤ tempMax
    · rw [if_pos ht] at hok
      cases hok
      exact ⟨h.1, h.2.1, ht.1, ht.2⟩
    · rw [if_neg ht] at hok
      cases hok

lemma settingsInv_updateRun (kvs : List UpdateVal) :
    ∀ st : WhisperSettings, SettingsInv st → SettingsInv (updateRun st kvs) := by
  induction kvs with
  | nil => intro st h; exact h
  | cons kv rest ih =>
    intro st h
    rw [updateRun]
    rcases hkv : applyUpdateVal st kv with e | st'
    · exact h
    · exact ih st' (settingsInv_applyUpdateVal st kv st' h hkv)

lemma settingsInv_runOp (st : WhisperSettings) (op : SettingsOp)
    (h : SettingsInv st) : SettingsInv (runOp st op) := by
  cases op with
  | setModelSize s => exact settingsInv_afterCall_model_size st s h
  | setLanguage s => exact settingsInv_afterCall_language st s h
  | setTask s => exact settingsInv_afterCall_task st s h
  | setTemperature t => exact settingsInv_afterCall_temperature st t h
  | update kvs => exact settingsInv_updateRun kvs st h

lemma settingsInv_mk (size lang tk : String) (temp : Rat)
    (st : WhisperSettings) (h : mkWhisperSettings size lang tk temp = .ok st) :
    SettingsInv st := by
  rw [mkWhisperSettings] at h
  by_cases h1 : size ∈ validSizes
  · rw [if_pos h1] at h
    by_cases h2 : tk ∈ validTasks
    · rw [if_pos h2] at h
      by_cases h3 : tempMin ≤ temp ∧ temp ≤ tempMax
      · rw [if_pos h3] at h
        cases h
        exact ⟨h1, h2, h3.1, h3.2⟩
      · rw [if_neg h3] at h
        cases h
    · rw [if_neg h2] at h
      cases h
  · rw [if_neg h1] at h
    cases h

/-- **C10.** Starting from any successfully constructed
`WhisperSettings`, every sequence of setter / `update` calls (each
returning normally or raising) preserves the invariant that the model
size and task stay in their enums and the temperature stays in
`[0, 1]`; moreover a raising setter leaves its field at the previous
value. -/
theorem settingsInvariant (size lang tk : String) (temp : Rat)
    (st : WhisperSettings) (ops : List SettingsOp)
    (h : mkWhisperSettings size lang tk temp = .ok st) :
    SettingsInv (ops.foldl runOp st) ∧
    (∀ (st' : WhisperSettings) (s : String), s ∉ validSizes →
      (runOp st' (.setModelSize s)).model_size = st'.model_size) ∧
    (∀ (st' : WhisperSettings) (s : String), s ∉ validTasks →
      (runOp st' (.setTask s)).task = st'.task) ∧
    (∀ (st' : WhisperSettings) (t : Rat), ¬ (tempMin ≤ t ∧ t ≤ tempMax) →
      (runOp st' (.setTemperature t)).temperature = st'.temperature) := by
  refine ⟨?_, ?_, ?_, ?_⟩
  · have h0 := settingsInv_mk size lang tk temp st h
    clear h
    induction ops generalizing st with
    | nil => exact h0
    | cons op rest ih =>
      rw [List.foldl_cons]
      exact ih (runOp st op) (settingsInv_runOp st op h0)
  · intro st' s hs
    rw [runOp, set_model_size, if_neg hs]
    rfl
  · intro st' s hs
    rw [runOp, set_task, if_neg hs]
    rfl
  · intro st' t ht
    rw [runOp, set_temperature, if_neg ht]
    rfl

/-- Witness for C10 at a concrete construction and call sequence
containing both succeeding and raising calls. -/
theorem settingsInvariant_witness :
    SettingsInv
      ([SettingsOp.setTemperature 2, SettingsOp.setModelSize "huge",
        SettingsOp.update [UpdateVal.modelSize "large", UpdateVal.temperature (1/2)],
        SettingsOp.setTask "translate"].foldl runOp
        ⟨"base", "en", "transcribe", 0⟩) :=
  (settingsInvariant "base" "en" "transcribe" 0
    ⟨"base", "en", "transcribe", 0⟩
    [SettingsOp.setTemperature 2, SettingsOp.setModelSize "huge",
     SettingsOp.update [UpdateVal.modelSize "large", UpdateVal.temperature (1/2)],
     SettingsOp.setTask "translate"]
    (by rfl)).1

end WhisperCaption
